import Mathlib

/-!
Shallow embedding of the fully-associative cache simulator (sim.c) and
proofs of the specification's claims about it.

The simulator's pieces modelled here:
  * `htoi`            — hex-text to unsigned-int conversion (sim.c, htoi)
  * `getBinary`       — 32-bit binary string of an address (sim.c, getBinary)
  * `formatBinary`    — tag/index/offset partition of that string (sim.c, formatBinary)
  * `createCache`     — cache construction with parameter validation (sim.c, createCache)
  * `readFromCache` / `writeToCache` — the lookup-or-install access path
  * `runTrace`        — the main loop's sequential fold over a trace

Machine integers are modelled as `Nat`/`Int` with explicit wraparound
(`% 2^32`) where the C code uses `unsigned int` arithmetic that can wrap.
The bit-field widths TAG / INDEX / OFFSET come from sim.h, which is not part
of the sources here; they are carried as explicit parameters (`tagW`, `idxW`,
`offW`), per the spec's description of them as fixed configuration constants
summing to 32.
-/

namespace CacheSim

/-- 2^32, the modulus of C `unsigned int` arithmetic. -/
def UINT_MOD : Nat := 4294967296

/-- Digit value of one character, exactly as the body of htoi's loop tests it:
decimal digits first, then (after `tolower`) the letters a–f; any other
character yields `none` (the loop adds nothing for it). -/
def hexDigitValue (c : Char) : Option Nat :=
  if '0' ≤ c ∧ c ≤ '9' then
    some (c.toNat - '0'.toNat)
  else if 'a' ≤ c.toLower ∧ c.toLower ≤ 'f' then
    some (c.toLower.toNat - 'a'.toNat + 10)
  else
    none

/-- The initial `if(str[0] == '0' && str[1] == 'x') i = i + 2;` of htoi. -/
def stripHexMarker : List Char → List Char
  | '0' :: 'x' :: rest => rest
  | s => s

/-- The while-loop of htoi: multiply the accumulator by 16 for EVERY
character, then add the digit value only when the character is recognized. -/
def htoiLoop (acc : Nat) : List Char → Nat
  | [] => acc
  | c :: cs =>
    match hexDigitValue c with
    | some d => htoiLoop ((acc * 16 % UINT_MOD + d) % UINT_MOD) cs
    | none => htoiLoop (acc * 16 % UINT_MOD) cs

/-- sim.c `htoi`: hex text to unsigned integer, never failing. -/
def htoi (s : List Char) : Nat :=
  htoiLoop 0 (stripHexMarker s)

/-- sim.c `getBinary`: the 32-character binary string of `num`, most
significant bit first (`bstring[31 - i]` is bit `i`). -/
def getBinary (num : Nat) : List Char :=
  (List.range 32).map (fun j => if num.testBit (31 - j) then '1' else '0')

/-- sim.c `formatBinary`: the binary string with a space after the tag field
and another after the index field. -/
def formatBinary (tagW idxW offW : Nat) (b : List Char) : List Char :=
  b.take tagW ++ [' '] ++ (b.drop tagW).take idxW ++ [' '] ++
    (b.drop (tagW + idxW)).take offW

/-- The tag extracted by readFromCache/writeToCache: the first `tagW`
characters of the formatted binary string of the converted address. -/
def tagOf (tagW idxW offW : Nat) (address : List Char) : List Char :=
  (formatBinary tagW idxW offW (getBinary (htoi address))).take tagW

/-- sim.c `struct Block_`: validity flag, tag string, dirty flag
(ints 0/1 in C). -/
structure Block where
  valid : Nat
  tag : List Char
  dirty : Nat
deriving DecidableEq

/-- sim.c `struct Cache_`: the four counters, the construction parameters,
the write policy (0 = write through, 1 = write back) and the slot array
(`Block*` per slot, `none` for a NULL slot). -/
structure Cache where
  hits : Nat
  misses : Nat
  reads : Nat
  writes : Nat
  cache_size : Int
  block_size : Int
  write_policy : Int
  blocks : List (Option Block)
deriving DecidableEq

/-- sim.c `createCache`: reject non-positive sizes and unknown policies
(NULL result); otherwise zero counters and `cache_size / block_size`
NULL slots.  Note the C code does NOT test divisibility. -/
def createCache (cache_size block_size write_policy : Int) : Option Cache :=
  if cache_size ≤ 0 ∨ block_size ≤ 0 ∨ (write_policy ≠ 0 ∧ write_policy ≠ 1) then
    none
  else
    some { hits := 0, misses := 0, reads := 0, writes := 0,
           cache_size := cache_size, block_size := block_size,
           write_policy := write_policy,
           blocks := List.replicate ((cache_size / block_size).toNat) none }

/-- Outcome vocabulary for one access: `hit` (the first scan finds a valid
matching block, C returns 1), `missInstalled` (a NULL slot receives the new
block, C returns 1), `missDropped` (no match and no NULL slot, C frees the
new block and returns 0). -/
inductive AccessOutcome where
  | hit
  | missInstalled
  | missDropped
deriving DecidableEq

/-- The first scan of readFromCache/writeToCache: is there a non-NULL slot
whose block is valid and whose tag string compares equal? -/
def findsMatch (t : List Char) : List (Option Block) → Bool
  | [] => false
  | none :: bs => findsMatch t bs
  | some b :: bs =>
    if b.valid = 1 ∧ b.tag = t then true else findsMatch t bs

/-- The write-hit path's `block->dirty = 1` on the first matching block;
slots after the match are untouched (the C loop returns there). -/
def setDirtyAtMatch (t : List Char) : List (Option Block) → List (Option Block)
  | [] => []
  | none :: bs => none :: setDirtyAtMatch t bs
  | some b :: bs =>
    if b.valid = 1 ∧ b.tag = t then some { b with dirty := 1 } :: bs
    else some b :: setDirtyAtMatch t bs

/-- The second scan: store the new block in the first NULL slot, or report
that none exists. -/
def installFirstEmpty (nb : Block) : List (Option Block) → Option (List (Option Block))
  | [] => none
  | none :: bs => some (some nb :: bs)
  | some b :: bs => (installFirstEmpty nb bs).map (fun l => some b :: l)

/-- sim.c `readFromCache`: on a match, only `hits` increments; otherwise a
new clean block is built and the first NULL slot (if any) receives it,
incrementing `misses` and `reads`; with no NULL slot the block is freed and
nothing changes. -/
def readFromCache (tagW idxW offW : Nat) (cache : Cache) (address : List Char) :
    Cache × AccessOutcome :=
  if findsMatch (tagOf tagW idxW offW address) cache.blocks then
    ({ cache with hits := cache.hits + 1 }, AccessOutcome.hit)
  else
    match installFirstEmpty
        { valid := 1, tag := tagOf tagW idxW offW address, dirty := 0 }
        cache.blocks with
    | some bs =>
      ({ cache with blocks := bs, misses := cache.misses + 1,
                    reads := cache.reads + 1 }, AccessOutcome.missInstalled)
    | none => (cache, AccessOutcome.missDropped)

/-- sim.c `writeToCache`: on a match, `writes` increments exactly when the
policy is write-through (0), the block is marked dirty and `hits`
increments; the miss path builds a dirty block and otherwise mirrors
readFromCache. -/
def writeToCache (tagW idxW offW : Nat) (cache : Cache) (address : List Char) :
    Cache × AccessOutcome :=
  if findsMatch (tagOf tagW idxW offW address) cache.blocks then
    ({ cache with
        writes := if cache.write_policy = 0 then cache.writes + 1 else cache.writes,
        blocks := setDirtyAtMatch (tagOf tagW idxW offW address) cache.blocks,
        hits := cache.hits + 1 }, AccessOutcome.hit)
  else
    match installFirstEmpty
        { valid := 1, tag := tagOf tagW idxW offW address, dirty := 1 }
        cache.blocks with
    | some bs =>
      ({ cache with blocks := bs, misses := cache.misses + 1,
                    reads := cache.reads + 1 }, AccessOutcome.missInstalled)
    | none => (cache, AccessOutcome.missDropped)

/-- One trace record's operation (the `R` / `W` codes of the main loop). -/
inductive Op where
  | read
  | write
deriving DecidableEq

/-- Dispatch of one trace record, as in the main loop. -/
def access (tagW idxW offW : Nat) (c : Cache) : Op × List Char → Cache × AccessOutcome
  | (Op.read, a) => readFromCache tagW idxW offW c a
  | (Op.write, a) => writeToCache tagW idxW offW c a

/-- The main loop: fold the trace through `access`, collecting the outcome
of every record in order. -/
def runTrace (tagW idxW offW : Nat) (c : Cache) :
    List (Op × List Char) → Cache × List AccessOutcome
  | [] => (c, [])
  | e :: es =>
    ((runTrace tagW idxW offW (access tagW idxW offW c e).1 es).1,
     (access tagW idxW offW c e).2 ::
       (runTrace tagW idxW offW (access tagW idxW offW c e).1 es).2)

/-- The address `0x00000000` as the character list the trace loop hands over. -/
def addrZero : List Char := ['0', 'x', '0', '0', '0', '0', '0', '0', '0', '0']

/-- The address `0xFFFFFFFF` as the character list the trace loop hands over. -/
def addrOnes : List Char := ['0', 'x', 'F', 'F', 'F', 'F', 'F', 'F', 'F', 'F']

/-- A freshly constructed write-through cache with a single line
(`createCache 16 16 0`). -/
def oneLineCache : Cache :=
  { hits := 0, misses := 0, reads := 0, writes := 0,
    cache_size := 16, block_size := 16, write_policy := 0,
    blocks := [none] }

/-- A freshly constructed write-back cache with a single line
(`createCache 16 16 1`). -/
def oneLineWBCache : Cache :=
  { hits := 0, misses := 0, reads := 0, writes := 0,
    cache_size := 16, block_size := 16, write_policy := 1,
    blocks := [none] }

/-- A single-line cache whose only slot holds the (clean, valid) block with
the all-zero 18-bit tag — the state after `R 0x00000000` on `oneLineCache`. -/
def fullOneLineCache : Cache :=
  { hits := 0, misses := 1, reads := 1, writes := 0,
    cache_size := 16, block_size := 16, write_policy := 0,
    blocks := [some { valid := 1, tag := List.replicate 18 '0', dirty := 0 }] }

/-- The trace used by Scenario C of the spec: two reads of addresses with
distinct tags against a single-line cache. -/
def scenarioCTrace : List (Op × List Char) := [(Op.read, addrZero), (Op.read, addrOnes)]

/-- Number of outcomes in a list that are not MissDropped, i.e. that are Hit
or MissInstalled. -/
def countNonDropped : List AccessOutcome → Nat
  | [] => 0
  | AccessOutcome.missDropped :: os => countNonDropped os
  | _ :: os => countNonDropped os + 1

/-- Number of MissInstalled outcomes in a list. -/
def countInstalled : List AccessOutcome → Nat
  | [] => 0
  | AccessOutcome.missInstalled :: os => countInstalled os + 1
  | _ :: os => countInstalled os

/-- Value of a list of hex digit values read most-significant first, in
C `unsigned int` arithmetic. -/
def hexStringValue (ds : List Nat) : Nat :=
  ds.foldl (fun r d => (r * 16 + d) % UINT_MOD) 0

/-- Follows the spec's words for claim C6: the value of the hex string
obtained by DELETING every unrecognized character from the input (after the
optional leading `0x`). -/
def htoiDeleting (s : List Char) : Nat :=
  hexStringValue ((stripHexMarker s).filterMap hexDigitValue)

/-- The tags of the valid blocks currently resident in the slot list, in
slot order. -/
def validTags : List (Option Block) → List (List Char)
  | [] => []
  | none :: bs => validTags bs
  | some b :: bs => if b.valid = 1 then b.tag :: validTags bs else validTags bs

end CacheSim

namespace CacheSim

theorem access_write_policy (tagW idxW offW : Nat) (c : Cache) (e : Op × List Char) :
    (access tagW idxW offW c e).1.write_policy = c.write_policy := by
  obtain ⟨op, a⟩ := e
  cases op <;>
    · simp only [access, readFromCache, writeToCache]
      split
      · rfl
      · split <;> rfl

theorem access_hits_misses (tagW idxW offW : Nat) (c : Cache) (e : Op × List Char) :
    (access tagW idxW offW c e).1.hits + (access tagW idxW offW c e).1.misses =
      c.hits + c.misses +
        (if (access tagW idxW offW c e).2 = AccessOutcome.missDropped then 0 else 1) := by
  obtain ⟨op, a⟩ := e
  cases op <;>
    · simp only [access, readFromCache, writeToCache]
      split
      · simp
        omega
      · split
        · simp
          omega
        · simp

theorem access_reads (tagW idxW offW : Nat) (c : Cache) (e : Op × List Char) :
    (access tagW idxW offW c e).1.reads =
      c.reads +
        (if (access tagW idxW offW c e).2 = AccessOutcome.missInstalled then 1 else 0) := by
  obtain ⟨op, a⟩ := e
  cases op <;>
    · simp only [access, readFromCache, writeToCache]
      split
      · simp
      · split <;> simp

theorem access_misses (tagW idxW offW : Nat) (c : Cache) (e : Op × List Char) :
    (access tagW idxW offW c e).1.misses =
      c.misses +
        (if (access tagW idxW offW c e).2 = AccessOutcome.missInstalled then 1 else 0) := by
  obtain ⟨op, a⟩ := e
  cases op <;>
    · simp only [access, readFromCache, writeToCache]
      split
      · simp
      · split <;> simp

theorem access_writes_of_policy_ne_zero (tagW idxW offW : Nat) (c : Cache)
    (e : Op × List Char) (h : c.write_policy ≠ 0) :
    (access tagW idxW offW c e).1.writes = c.writes := by
  obtain ⟨op, a⟩ := e
  cases op <;>
    · simp only [access, readFromCache, writeToCache]
      split
      · simp [h]
      · split <;> rfl

theorem readFromCache_dropped_eq (tagW idxW offW : Nat) (c : Cache) (a : List Char)
    (h : (readFromCache tagW idxW offW c a).2 = AccessOutcome.missDropped) :
    (readFromCache tagW idxW offW c a).1 = c := by
  simp only [readFromCache] at h ⊢
  split at h
  · simp at h
  · rename_i hcond
    rw [if_neg hcond]
    cases hinst : installFirstEmpty
        { valid := 1, tag := tagOf tagW idxW offW a, dirty := 0 } c.blocks with
    | none => rfl
    | some bs =>
      rw [hinst] at h
      simp at h

theorem writeToCache_dropped_eq (tagW idxW offW : Nat) (c : Cache) (a : List Char)
    (h : (writeToCache tagW idxW offW c a).2 = AccessOutcome.missDropped) :
    (writeToCache tagW idxW offW c a).1 = c := by
  simp only [writeToCache] at h ⊢
  split at h
  · simp at h
  · rename_i hcond
    rw [if_neg hcond]
    cases hinst : installFirstEmpty
        { valid := 1, tag := tagOf tagW idxW offW a, dirty := 1 } c.blocks with
    | none => rfl
    | some bs =>
      rw [hinst] at h
      simp at h

theorem runTrace_writes_of_policy_ne_zero (tagW idxW offW : Nat) (c : Cache)
    (tr : List (Op × List Char)) (h : c.write_policy ≠ 0) :
    (runTrace tagW idxW offW c tr).1.writes = c.writes := by
  induction tr generalizing c with
  | nil => rfl
  | cons e es ih =>
    have hp : (access tagW idxW offW c e).1.write_policy ≠ 0 := by
      rw [access_write_policy]
      exact h
    simp only [runTrace]
    rw [ih _ hp, access_writes_of_policy_ne_zero _ _ _ _ _ h]

/-- Claim C1 counterexample: on a freshly constructed single-line cache, the
two-record trace `R 0x00000000, R 0xFFFFFFFF` ends with `hits + misses = 1`,
not 2 — the second access misses with no empty slot and increments neither
counter. -/
theorem hits_misses_undercount_on_full_cache :
    scenarioCTrace.length = 2 ∧
    (runTrace 18 12 2 oneLineCache scenarioCTrace).1.hits +
      (runTrace 18 12 2 oneLineCache scenarioCTrace).1.misses = 1 := by
  decide

theorem runTrace_hits_misses_count (tagW idxW offW : Nat) (c : Cache)
    (tr : List (Op × List Char)) :
    (runTrace tagW idxW offW c tr).1.hits + (runTrace tagW idxW offW c tr).1.misses =
      c.hits + c.misses + countNonDropped (runTrace tagW idxW offW c tr).2 := by
  induction tr generalizing c with
  | nil => simp [runTrace, countNonDropped]
  | cons e es ih =>
    have h1 := access_hits_misses tagW idxW offW c e
    have h2 := ih (access tagW idxW offW c e).1
    simp only [runTrace]
    cases ho : (access tagW idxW offW c e).2 <;>
      rw [ho] at h1 <;> simp only [countNonDropped] <;> simp at h1 <;> omega

/-- Claim C1 (amended): an access increments exactly one of `hits`/`misses`
by 1 when its outcome is Hit or MissInstalled, and increments neither when
the outcome is MissDropped (a miss with no empty slot); hence after a run
from a freshly constructed cache, `hits + misses` equals the number of
access records whose outcome was not MissDropped. -/
theorem hits_plus_misses_counts_non_dropped (tagW idxW offW : Nat) (cs bsz wp : Int)
    (c0 : Cache) (h : createCache cs bsz wp = some c0)
    (tr : List (Op × List Char)) :
    (runTrace tagW idxW offW c0 tr).1.hits + (runTrace tagW idxW offW c0 tr).1.misses =
      countNonDropped (runTrace tagW idxW offW c0 tr).2 := by
  have hz : c0.hits = 0 ∧ c0.misses = 0 := by
    unfold createCache at h
    split at h
    · exact absurd h (by simp)
    · rw [Option.some_inj] at h
      subst h
      exact ⟨rfl, rfl⟩
  have := runTrace_hits_misses_count tagW idxW offW c0 tr
  omega

/-- Witness for claim C1 (amended) at a concrete input: the fresh
single-line cache and the two-read Scenario C trace. -/
theorem hits_plus_misses_counts_non_dropped_witness :
    (runTrace 18 12 2 oneLineCache scenarioCTrace).1.hits +
        (runTrace 18 12 2 oneLineCache scenarioCTrace).1.misses =
      countNonDropped (runTrace 18 12 2 oneLineCache scenarioCTrace).2 :=
  hits_plus_misses_counts_non_dropped 18 12 2 16 16 0 oneLineCache (by decide)
    scenarioCTrace

/-- Claim C3: on a write, `memoryWrites` increments by exactly 1 precisely
when the policy is write-through (0) and the outcome is a hit, and is
unchanged otherwise (so never from a write-back hit and never on a write
miss); a read never changes `memoryWrites`. -/
theorem memoryWrites_policy_rule (tagW idxW offW : Nat) (c : Cache) (a : List Char) :
    ((writeToCache tagW idxW offW c a).1.writes =
      if c.write_policy = 0 ∧ (writeToCache tagW idxW offW c a).2 = AccessOutcome.hit
      then c.writes + 1 else c.writes)
    ∧ (readFromCache tagW idxW offW c a).1.writes = c.writes := by
  constructor
  · simp only [writeToCache]
    split
    · by_cases hp : c.write_policy = 0 <;> simp [hp]
    · split <;> simp
  · simp only [readFromCache]
    split
    · rfl
    · split <;> rfl

theorem runTrace_reads_count (tagW idxW offW : Nat) (c : Cache)
    (tr : List (Op × List Char)) :
    (runTrace tagW idxW offW c tr).1.reads =
      c.reads + countInstalled (runTrace tagW idxW offW c tr).2 := by
  induction tr generalizing c with
  | nil => simp [runTrace, countInstalled]
  | cons e es ih =>
    have h1 := access_reads tagW idxW offW c e
    have h2 := ih (access tagW idxW offW c e).1
    simp only [runTrace]
    cases ho : (access tagW idxW offW c e).2 <;>
      rw [ho] at h1 <;> simp only [countInstalled] <;> simp at h1 <;> omega

/-- Claim C4: after any run from a freshly constructed cache, `memoryReads`
equals exactly the number of accesses (Read or Write) whose outcome was
MissInstalled; hits and MissDropped outcomes never increment it. -/
theorem memoryReads_eq_missInstalled_count (tagW idxW offW : Nat) (cs bsz wp : Int)
    (c0 : Cache) (h : createCache cs bsz wp = some c0)
    (tr : List (Op × List Char)) :
    (runTrace tagW idxW offW c0 tr).1.reads =
      countInstalled (runTrace tagW idxW offW c0 tr).2 := by
  have hz : c0.reads = 0 := by
    unfold createCache at h
    split at h
    · exact absurd h (by simp)
    · rw [Option.some_inj] at h
      subst h
      rfl
  have := runTrace_reads_count tagW idxW offW c0 tr
  omega

/-- Witness for claim C4 at a concrete input: the fresh single-line cache
and the two-read Scenario C trace (one installed miss, one dropped miss). -/
theorem memoryReads_eq_missInstalled_count_witness :
    (runTrace 18 12 2 oneLineCache scenarioCTrace).1.reads =
      countInstalled (runTrace 18 12 2 oneLineCache scenarioCTrace).2 :=
  memoryReads_eq_missInstalled_count 18 12 2 16 16 0 oneLineCache (by decide)
    scenarioCTrace

/-- Claim C5 counterexample: `createCache 10 3 0` succeeds even though the
block size 3 does not divide the cache size 10 — the divisibility constraint
is never checked. -/
theorem createCache_accepts_nondividing_block_size :
    (createCache 10 3 0).isSome = true ∧ (10 : Int) % 3 ≠ 0 := by
  decide

/-- Claim C5 (amended): construction fails (returns no cache) if and only if
the cache size is non-positive, the block size is non-positive, or the write
policy is neither 0 nor 1; divisibility of the cache size by the block size
is NOT required. -/
theorem createCache_none_iff (cs bs wp : Int) :
    createCache cs bs wp = none ↔ (cs ≤ 0 ∨ bs ≤ 0 ∨ (wp ≠ 0 ∧ wp ≠ 1)) := by
  unfold createCache
  split
  · rename_i h
    exact iff_of_true rfl h
  · rename_i h
    exact iff_of_false (by simp) h

/-- Claim C6 counterexample: on input `"1G"` htoi yields 16 — the skipped
`G` still multiplies the accumulator by 16 — while deleting the `G` would
yield 1. -/
theorem htoi_skipped_char_still_shifts :
    htoi ['1', 'G'] = 16 ∧ htoiDeleting ['1', 'G'] = 1 ∧
      htoi ['1', 'G'] ≠ htoiDeleting ['1', 'G'] := by
  decide

theorem htoiLoop_eq_foldl (l : List Char) (acc : Nat) :
    htoiLoop acc l =
      l.foldl (fun r c => (r * 16 + (hexDigitValue c).getD 0) % UINT_MOD) acc := by
  induction l generalizing acc with
  | nil => rfl
  | cons c cs ih =>
    cases h : hexDigitValue c with
    | none => simp [htoiLoop, h, ih]
    | some d => simp [htoiLoop, h, ih, Nat.mod_add_mod]

/-- Claim C6 (amended): htoi never fails, and its result equals the value of
the hex string obtained by REPLACING every unrecognized character (after the
optional leading `0x`) by the digit 0 — a skipped character contributes no
digit value but still shifts the accumulated result by four bits. -/
theorem htoi_replaces_unrecognized_with_zero (s : List Char) :
    htoi s =
      hexStringValue ((stripHexMarker s).map (fun c => (hexDigitValue c).getD 0)) := by
  unfold htoi hexStringValue
  rw [htoiLoop_eq_foldl, List.foldl_map]

/-- Claim C8: an access whose outcome is MissDropped leaves the whole
observable cache state — all four counters and every slot — exactly as it
was, for reads and for writes alike. -/
theorem missDropped_frame (tagW idxW offW : Nat) (c : Cache) (a : List Char) :
    ((readFromCache tagW idxW offW c a).2 = AccessOutcome.missDropped →
      (readFromCache tagW idxW offW c a).1 = c)
    ∧ ((writeToCache tagW idxW offW c a).2 = AccessOutcome.missDropped →
      (writeToCache tagW idxW offW c a).1 = c) :=
  ⟨readFromCache_dropped_eq tagW idxW offW c a,
   writeToCache_dropped_eq tagW idxW offW c a⟩

/-- Witness for claim C8 at a concrete input: reading `0xFFFFFFFF` against
the full single-line cache is a dropped miss and returns the state intact. -/
theorem missDropped_frame_witness :
    (readFromCache 18 12 2 fullOneLineCache addrOnes).1 = fullOneLineCache :=
  (missDropped_frame 18 12 2 fullOneLineCache addrOnes).1 (by decide)

/-- Claim C9: `memoryReads` and `misses` are incremented together in exactly
the same cases, so from any state where they agree (in particular the
all-zero counters of construction) they agree after every access of any
trace, under both policies. -/
theorem memoryReads_eq_misses_invariant (tagW idxW offW : Nat) (c : Cache)
    (tr : List (Op × List Char)) (h : c.reads = c.misses) :
    (runTrace tagW idxW offW c tr).1.reads = (runTrace tagW idxW offW c tr).1.misses := by
  induction tr generalizing c with
  | nil => exact h
  | cons e es ih =>
    simp only [runTrace]
    apply ih
    have h1 := access_reads tagW idxW offW c e
    have h2 := access_misses tagW idxW offW c e
    omega

/-- Witness for claim C9 at a concrete input: a fresh single-line cache and
a two-record trace. -/
theorem memoryReads_eq_misses_invariant_witness :
    (runTrace 18 12 2 oneLineCache scenarioCTrace).1.reads =
      (runTrace 18 12 2 oneLineCache scenarioCTrace).1.misses :=
  memoryReads_eq_misses_invariant 18 12 2 oneLineCache scenarioCTrace rfl

/-- Claim C10: under the write-back policy (1), no access of any trace ever
increments `memoryWrites`: it is 0 at construction and stays 0 through the
whole run. -/
theorem writeback_memoryWrites_stays_zero (tagW idxW offW : Nat) (cs bs : Int)
    (c0 : Cache) (h : createCache cs bs 1 = some c0)
    (tr : List (Op × List Char)) :
    (runTrace tagW idxW offW c0 tr).1.writes = 0 := by
  unfold createCache at h
  split at h
  · exact absurd h (by simp)
  · rw [Option.some_inj] at h
    subst h
    rw [runTrace_writes_of_policy_ne_zero]
    exact one_ne_zero

/-- Witness for claim C10 at a concrete input: two writes (a miss then a
hit) on a fresh single-line write-back cache leave `memoryWrites` at 0. -/
theorem writeback_memoryWrites_stays_zero_witness :
    (runTrace 18 12 2 oneLineWBCache
      [(Op.write, addrZero), (Op.write, addrZero)]).1.writes = 0 :=
  writeback_memoryWrites_stays_zero 18 12 2 16 16 oneLineWBCache (by decide)
    [(Op.write, addrZero), (Op.write, addrZero)]

theorem getBinary_length (n : Nat) : (getBinary n).length = 32 := by
  simp [getBinary]

theorem take_formatBinary (tagW idxW offW : Nat) (b : List Char) (h : tagW ≤ b.length) :
    (formatBinary tagW idxW offW b).take tagW = b.take tagW := by
  unfold formatBinary
  rw [List.append_assoc, List.append_assoc, List.append_assoc,
    List.take_append_of_le_length (by simpa using h),
    List.take_take, Nat.min_self]

theorem tagOf_eq_take_getBinary (tagW idxW offW : Nat) (h : tagW ≤ 32) (a : List Char) :
    tagOf tagW idxW offW a = (getBinary (htoi a)).take tagW := by
  unfold tagOf
  exact take_formatBinary tagW idxW offW _ (by rw [getBinary_length]; exact h)

theorem tagOf_addrZero (tagW idxW offW : Nat) (h : tagW ≤ 32) :
    tagOf tagW idxW offW addrZero = List.replicate tagW '0' := by
  rw [tagOf_eq_take_getBinary tagW idxW offW h]
  have h0 : htoi addrZero = 0 := by decide
  have hb : getBinary 0 = List.replicate 32 '0' := by decide
  rw [h0, hb, List.take_replicate, Nat.min_eq_left h]

theorem tagOf_addrOnes (tagW idxW offW : Nat) (h : tagW ≤ 32) :
    tagOf tagW idxW offW addrOnes = List.replicate tagW '1' := by
  rw [tagOf_eq_take_getBinary tagW idxW offW h]
  have h0 : htoi addrOnes = 4294967295 := by decide
  have hb : getBinary 4294967295 = List.replicate 32 '1' := by decide
  rw [h0, hb, List.take_replicate, Nat.min_eq_left h]

theorem replicate_zero_ne_replicate_one (tagW : Nat) (h : 1 ≤ tagW) :
    List.replicate tagW '0' ≠ List.replicate tagW '1' := by
  cases tagW with
  | zero => exact absurd h (by simp)
  | succ k =>
    intro hEq
    rw [List.replicate_succ, List.replicate_succ] at hEq
    injection hEq with h1 h2
    exact absurd h1 (by decide)

/-- Claim C2: on a single-line cache (any tag width between 1 and 32),
reading `0x00000000` and then `0xFFFFFFFF` gives `[MissInstalled,
MissDropped]`: the second access matches no tag, finds no empty slot,
evicts and installs nothing — the first block is still the sole resident —
and the second address's tag is not resident afterwards. -/
theorem scenarioC_missInstalled_then_missDropped (tagW idxW offW : Nat)
    (h1 : 1 ≤ tagW) (h2 : tagW ≤ 32) (c : Cache) (hb : c.blocks = [none]) :
    (runTrace tagW idxW offW c scenarioCTrace).2
        = [AccessOutcome.missInstalled, AccessOutcome.missDropped]
    ∧ (runTrace tagW idxW offW c scenarioCTrace).1.blocks
        = [some { valid := 1, tag := tagOf tagW idxW offW addrZero, dirty := 0 }]
    ∧ findsMatch (tagOf tagW idxW offW addrOnes)
        (runTrace tagW idxW offW c scenarioCTrace).1.blocks = false := by
  have hz := tagOf_addrZero tagW idxW offW h2
  have ho := tagOf_addrOnes tagW idxW offW h2
  have hne := replicate_zero_ne_replicate_one tagW h1
  simp only [scenarioCTrace, runTrace, access, readFromCache, hz, ho, hb]
  simp [findsMatch, installFirstEmpty, hne]

/-- Witness for claim C2 at the concrete widths 18/12/2 and the fresh
single-line cache. -/
theorem scenarioC_missInstalled_then_missDropped_witness :
    (runTrace 18 12 2 oneLineCache scenarioCTrace).2
        = [AccessOutcome.missInstalled, AccessOutcome.missDropped]
    ∧ (runTrace 18 12 2 oneLineCache scenarioCTrace).1.blocks
        = [some { valid := 1, tag := tagOf 18 12 2 addrZero, dirty := 0 }]
    ∧ findsMatch (tagOf 18 12 2 addrOnes)
        (runTrace 18 12 2 oneLineCache scenarioCTrace).1.blocks = false :=
  scenarioC_missInstalled_then_missDropped 18 12 2 (by decide) (by decide)
    oneLineCache rfl

theorem findsMatch_iff_mem_validTags (t : List Char) (bs : List (Option Block)) :
    findsMatch t bs = true ↔ t ∈ validTags bs := by
  induction bs with
  | nil => simp [findsMatch, validTags]
  | cons ob rest ih =>
    cases ob with
    | none => simpa [findsMatch, validTags] using ih
    | some b =>
      by_cases hv : b.valid = 1
      · by_cases ht : b.tag = t
        · simp [findsMatch, validTags, hv, ht]
        · have ht2 : ¬ t = b.tag := fun hEq => ht hEq.symm
          simp [findsMatch, validTags, hv, ht, ht2, ih]
      · simp [findsMatch, validTags, hv, ih]

theorem validTags_setDirtyAtMatch (t : List Char) (bs : List (Option Block)) :
    validTags (setDirtyAtMatch t bs) = validTags bs := by
  induction bs with
  | nil => rfl
  | cons ob rest ih =>
    cases ob with
    | none => simp [setDirtyAtMatch, validTags, ih]
    | some b =>
      by_cases hc : b.valid = 1 ∧ b.tag = t
      · simp [setDirtyAtMatch, validTags, hc, hc.1]
      · simp [setDirtyAtMatch, validTags, hc, ih]

theorem validTags_installFirstEmpty (nb : Block) (bs bs' : List (Option Block))
    (h : installFirstEmpty nb bs = some bs') (hv : nb.valid = 1) :
    (validTags bs').Perm (nb.tag :: validTags bs) := by
  induction bs generalizing bs' with
  | nil => simp [installFirstEmpty] at h
  | cons ob rest ih =>
    cases ob with
    | none =>
      simp only [installFirstEmpty, Option.some_inj] at h
      subst h
      simp only [validTags, hv, if_pos rfl]
      exact List.Perm.refl _
    | some b =>
      simp only [installFirstEmpty] at h
      cases hrec : installFirstEmpty nb rest with
      | none =>
        rw [hrec] at h
        simp at h
      | some l =>
        rw [hrec] at h
        simp only [Option.map_some', Option.some_inj] at h
        subst h
        have hp := ih l hrec
        by_cases hbv : b.valid = 1
        · simp only [validTags, hbv, if_pos rfl]
          exact (hp.cons b.tag).trans (List.Perm.swap nb.tag b.tag (validTags rest))
        · simp only [validTags, hbv, if_neg hbv]
          exact hp

theorem access_preserves_nodup (tagW idxW offW : Nat) (c : Cache) (e : Op × List Char)
    (h : (validTags c.blocks).Nodup) :
    (validTags (access tagW idxW offW c e).1.blocks).Nodup := by
  obtain ⟨op, a⟩ := e
  cases op with
  | read =>
    simp only [access, readFromCache]
    split
    · simpa using h
    · rename_i hcond
      cases hinst : installFirstEmpty
          { valid := 1, tag := tagOf tagW idxW offW a, dirty := 0 } c.blocks with
      | none => simpa using h
      | some bs =>
        have hp := validTags_installFirstEmpty _ _ _ hinst rfl
        have hmem : tagOf tagW idxW offW a ∉ validTags c.blocks := fun hm =>
          hcond ((findsMatch_iff_mem_validTags _ _).mpr hm)
        dsimp only
        exact hp.nodup_iff.mpr (List.nodup_cons.mpr ⟨hmem, h⟩)
  | write =>
    simp only [access, writeToCache]
    split
    · dsimp only
      rw [validTags_setDirtyAtMatch]
      exact h
    · rename_i hcond
      cases hinst : installFirstEmpty
          { valid := 1, tag := tagOf tagW idxW offW a, dirty := 1 } c.blocks with
      | none => simpa using h
      | some bs =>
        have hp := validTags_installFirstEmpty _ _ _ hinst rfl
        have hmem : tagOf tagW idxW offW a ∉ validTags c.blocks := fun hm =>
          hcond ((findsMatch_iff_mem_validTags _ _).mpr hm)
        dsimp only
        exact hp.nodup_iff.mpr (List.nodup_cons.mpr ⟨hmem, h⟩)

theorem validTags_replicate_none (n : Nat) :
    validTags (List.replicate n (none : Option Block)) = [] := by
  induction n with
  | zero => rfl
  | succ k ih =>
    rw [List.replicate_succ]
    simpa [validTags] using ih

/-- Claim C7: starting from any freshly constructed cache, every sequence of
read and write accesses keeps the resident (valid) tags pairwise distinct:
no two valid slots ever hold equal tags. -/
theorem no_duplicate_resident_tags (tagW idxW offW : Nat) (cs bs wp : Int)
    (c0 : Cache) (h : createCache cs bs wp = some c0)
    (tr : List (Op × List Char)) :
    (validTags (runTrace tagW idxW offW c0 tr).1.blocks).Nodup := by
  have h0 : (validTags c0.blocks).Nodup := by
    unfold createCache at h
    split at h
    · exact absurd h (by simp)
    · rw [Option.some_inj] at h
      subst h
      dsimp only
      rw [validTags_replicate_none]
      exact List.nodup_nil
  clear h
  induction tr generalizing c0 with
  | nil => exact h0
  | cons e es ih =>
    simp only [runTrace]
    exact ih _ (access_preserves_nodup tagW idxW offW c0 e h0)

/-- Witness for claim C7 at a concrete input: the fresh single-line cache
and the two-read Scenario C trace. -/
theorem no_duplicate_resident_tags_witness :
    (validTags (runTrace 18 12 2 oneLineCache scenarioCTrace).1.blocks).Nodup :=
  no_duplicate_resident_tags 18 12 2 16 16 0 oneLineCache (by decide) scenarioCTrace

end CacheSim
